import Mathlib

/-!
Shallow embedding of the tmenu application launcher (script.py) and proofs
about its behaviour: descriptor scanning, Exec field-code sanitization,
live filtering, focus navigation and the launch/reset cycle.

Python strings are modelled as Lean `String` (ASCII-faithful models of
`str.lower` and `str.strip`), Python ints as `Int` (Python `%` with a
positive modulus agrees with `Int.emod`), raised exceptions as
`Except String`, and the two external collaborators - the rendering
backend and `subprocess.Popen` - as an event trace (`UIEvent`) plus a
spawn oracle `popen : List String → Option String` (`none` = the spawn
call returned, `some msg` = it raised with message `msg`).
-/

set_option linter.unusedVariables false

/-- ASCII model of Python `str.lower` (maps A-Z to a-z, as `Char.toLower`). -/
def pyLower (s : String) : String := String.mk (s.data.map Char.toLower)

/-- ASCII model of Python `str.strip`: drop whitespace from both ends. -/
def pyStrip (s : String) : String :=
  String.mk (((s.data.dropWhile Char.isWhitespace).reverse.dropWhile
    Char.isWhitespace).reverse)

/-- Model of the Python substring test `needle in hay` (contiguous substring). -/
def pyIn (needle hay : String) : Bool := decide (needle.data <:+: hay.data)

/-- The single-quote character, written by code point to keep literals plain. -/
def chSQ : Char := Char.ofNat 39

/-- The double-quote character. -/
def chDQ : Char := Char.ofNat 34

/-- The backslash character. -/
def chBS : Char := Char.ofNat 92

/-- Whitespace set of Python `shlex` (space, tab, carriage return, newline). -/
def shWS (c : Char) : Bool := c == ' ' || c == '\t' || c == '\r' || c == '\n'

/-- Scanner state of `shlex` in posix whitespace-split mode: between tokens,
inside a bare word, inside a quote, or right after an escape character
(`ret` remembers whether the escape occurred in a word (`none`) or inside a
double quote (`some q`)). -/
inductive ShState where
  | space
  | word
  | inQuote (q : Char)
  | escaped (ret : Option Char)
deriving DecidableEq

/-- One-pass model of CPython `shlex.split` (posix mode, whitespace_split):
arguments are the remaining characters, the scanner state, the current token
(reversed), the flag recording whether the current token saw a quote, and the
emitted tokens (reversed). Unclosed quotes and a trailing escape raise
`ValueError`, modelled as `.error`. -/
def shlexRun : List Char → ShState → List Char → Bool → List String →
    Except String (List String)
  | [], .space, _tok, _quoted, acc => .ok acc.reverse
  | [], .word, tok, quoted, acc =>
      if !tok.isEmpty || quoted then .ok (String.mk tok.reverse :: acc).reverse
      else .ok acc.reverse
  | [], .inQuote _, _, _, _ => .error "No closing quotation"
  | [], .escaped _, _, _, _ => .error "No escaped character"
  | c :: cs, .space, _tok, _quoted, acc =>
      if shWS c then shlexRun cs .space [] false acc
      else if c == chBS then shlexRun cs (.escaped none) [] false acc
      else if c == chSQ || c == chDQ then shlexRun cs (.inQuote c) [] true acc
      else shlexRun cs .word [c] false acc
  | c :: cs, .word, tok, quoted, acc =>
      if shWS c then
        if !tok.isEmpty || quoted then
          shlexRun cs .space [] false (String.mk tok.reverse :: acc)
        else shlexRun cs .space [] false acc
      else if c == chSQ || c == chDQ then shlexRun cs (.inQuote c) tok true acc
      else if c == chBS then shlexRun cs (.escaped none) tok quoted acc
      else shlexRun cs .word (c :: tok) quoted acc
  | c :: cs, .inQuote q, tok, quoted, acc =>
      if c == q then shlexRun cs .word tok quoted acc
      else if c == chBS && q == chDQ then
        shlexRun cs (.escaped (some q)) tok quoted acc
      else shlexRun cs (.inQuote q) (c :: tok) quoted acc
  | c :: cs, .escaped ret, tok, quoted, acc =>
      match ret with
      | none => shlexRun cs .word (c :: tok) quoted acc
      | some q =>
          if c != chBS && c != q then
            shlexRun cs (.inQuote q) (c :: chBS :: tok) quoted acc
          else shlexRun cs (.inQuote q) (c :: tok) quoted acc

/-- Model of `shlex.split` on a whole string. -/
def shlexSplit (s : String) : Except String (List String) :=
  shlexRun s.data .space [] false []

/-- Model of Python `arg.startswith("%")`: the first character is `%`
(false on the empty string). -/
def startsWithPercent (s : String) : Bool :=
  match s.data with
  | [] => false
  | c :: _ => c == '%'

/-- script.py line 18-20: drop the shell-split tokens that start with `%`
(desktop-entry field codes). A `ValueError` from `shlex.split` propagates. -/
def clean_exec_cmd (exec_cmd : String) : Except String (List String) :=
  (shlexSplit exec_cmd).map (fun args => args.filter (fun arg => !startsWithPercent arg))

/-- A parsed `.desktop` file, at the level `list_apps` reads it: the raw
string values (or absence) of the four keys it queries in `[Desktop Entry]`. -/
structure Descriptor where
  name : Option String
  exec_cmd : Option String
  terminal : Option String
  noDisplay : Option String
deriving DecidableEq

/-- Model of `config.get(..., fallback=dflt).lower() == "true"`. -/
def pyBoolKey (v : Option String) (dflt : String) : Bool :=
  pyLower (v.getD dflt) == "true"

/-- script.py line 37-43, per file: the truthiness test
`if entry and exec_cmd and not no_display` (a Python string is falsy when
empty or `None`), yielding the `(name, exec)` pair that is appended. -/
def scanFile (d : Descriptor) : Option (String × String) :=
  match d.name, d.exec_cmd with
  | some n, some e =>
      if n != "" && e != "" && !(pyBoolKey d.noDisplay "false") then some (n, e)
      else none
  | _, _ => none

/-- script.py line 22-46, over the successfully parsed descriptor files in
scan order (files whose parse raises are skipped by the `except` clause). -/
def list_apps (files : List Descriptor) : List (String × String) :=
  files.filterMap scanFile

/-- The mutable UI state of script.py line 54-58: the immutable name index
and name-to-command dict built at startup, plus the query text, the filtered
name list and the focus index (Python ints are unbounded, hence `Int`). -/
structure UIState where
  all_app_names : List String
  app_dict : List (String × String)
  query : String
  filtered_apps : List String
  focus_index : Int
deriving DecidableEq

/-- Model of Python `dict` lookup for a dict built from a list of pairs:
a later pair overwrites an earlier one with the same key, so look the key up
in the reversed list. -/
def dictGet (pairs : List (String × String)) (k : String) : Option String :=
  List.lookup k pairs.reverse

/-- script.py line 94-96: clamp the requested index into range, a no-op when
the filtered list is empty. -/
def set_focus (st : UIState) (idx : Int) : UIState :=
  if st.filtered_apps.isEmpty then st
  else { st with
    focus_index := min (max idx 0) ((st.filtered_apps.length : Int) - 1) }

/-- script.py line 83-88: recompute the filtered list from the stripped,
lower-cased text of the search box and reset the focus to 0. -/
def on_search_change (st : UIState) (newText : String) : UIState :=
  set_focus { st with
    query := newText,
    filtered_apps := st.all_app_names.filter
      (fun a => pyIn (pyLower (pyStrip newText)) (pyLower a)) } 0

/-- script.py line 132-136: numeric wrap-around then clamp; no-op when the
filtered list is empty. -/
def move_up (st : UIState) : UIState :=
  if st.filtered_apps.isEmpty then st
  else set_focus st ((st.focus_index - 1) % (st.filtered_apps.length : Int))

/-- script.py line 138-142. -/
def move_down (st : UIState) : UIState :=
  if st.filtered_apps.isEmpty then st
  else set_focus st ((st.focus_index + 1) % (st.filtered_apps.length : Int))

/-- Observable effects of the `enter` handler: a call of `subprocess.Popen`
with a concrete argv, and a `message_dialog(title="Error", ...).run()`
blocking popup with a concrete text. -/
inductive UIEvent where
  | popenCall (argv : List String)
  | errorDialog (text : String)
deriving DecidableEq

/-- Model of Python list indexing `l[i]`: negative indices count from the
end, out-of-range indexing returns `none` (an `IndexError` in Python). -/
def pyIndex (l : List String) (i : Int) : Option String :=
  if 0 ≤ i then l[i.toNat]?
  else if 0 ≤ (l.length : Int) + i then l[((l.length : Int) + i).toNat]?
  else none

/-- script.py line 155-160: clear the query, restore the full name list and
reset the focus to 0 (the trailing `rebuild_rows` / redraw is rendering). -/
def launchReset (st : UIState) : UIState :=
  set_focus { st with query := "", filtered_apps := st.all_app_names } 0

/-- script.py line 144-161, the `enter` handler. `popen` is the spawn
collaborator: `none` means `subprocess.Popen` returned, `some e` that it
raised with message `e`; the `try/except` maps any exception raised inside
the `try` block (including a `ValueError` from `shlex.split` and the
`IndexError` `subprocess` raises on an empty argv) to an error dialog.
An out-of-range `filtered_apps[focus_index[0]]` is outside the `try` block:
it propagates, modelled as `.error`. A falsy `cmd` (`None` or the empty
string) skips the whole `if cmd:` block silently. The reset runs on every
path that survives the indexing. -/
def launch (popen : List String → Option String) (st : UIState) :
    Except String (List UIEvent × UIState) :=
  if st.filtered_apps.isEmpty then .ok ([], st)
  else
    match pyIndex st.filtered_apps st.focus_index with
    | none => .error "IndexError: list index out of range"
    | some name =>
        .ok ((match dictGet st.app_dict name with
          | none => []
          | some cmd =>
              if cmd == "" then []
              else
                match clean_exec_cmd cmd with
                | .error e =>
                    [.errorDialog ("Error launching " ++ name ++ ":\n" ++ e)]
                | .ok argv =>
                    match popen argv with
                    | none => [.popenCall argv]
                    | some e =>
                        [.popenCall argv,
                         .errorDialog ("Error launching " ++ name ++ ":\n" ++ e)]),
          launchReset st)

/-- The §3 FocusState invariant: when the visible list is non-empty the focus
index lies in `[0, len-1]`. -/
def focusInv (st : UIState) : Prop :=
  st.filtered_apps ≠ [] →
    0 ≤ st.focus_index ∧ st.focus_index < (st.filtered_apps.length : Int)

instance (st : UIState) : Decidable (focusInv st) := by
  unfold focusInv; infer_instance

theorem set_focus_fields (st : UIState) (idx : Int) :
    (set_focus st idx).all_app_names = st.all_app_names ∧
    (set_focus st idx).app_dict = st.app_dict ∧
    (set_focus st idx).query = st.query ∧
    (set_focus st idx).filtered_apps = st.filtered_apps := by
  unfold set_focus
  split
  · exact ⟨rfl, rfl, rfl, rfl⟩
  · exact ⟨rfl, rfl, rfl, rfl⟩

theorem set_focus_focus_of_ne (st : UIState) (idx : Int)
    (h : st.filtered_apps ≠ []) :
    (set_focus st idx).focus_index =
      min (max idx 0) ((st.filtered_apps.length : Int) - 1) := by
  have he : st.filtered_apps.isEmpty = false := by
    simpa [List.isEmpty_iff] using h
  unfold set_focus
  simp [he]

/-- Clamping a value already in `[0, n-1]` is the identity. -/
theorem clamp_of_range (v n : Int) (h0 : 0 ≤ v) (h1 : v < n) :
    min (max v 0) (n - 1) = v := by
  rw [max_eq_left h0, min_eq_left (by omega)]

theorem set_focus_establishes_inv (st : UIState) (idx : Int) :
    focusInv (set_focus st idx) := by
  intro h
  rw [(set_focus_fields st idx).2.2.2] at h
  rw [(set_focus_fields st idx).2.2.2, set_focus_focus_of_ne st idx h]
  have hn : 0 < st.filtered_apps.length := List.length_pos.mpr h
  have hz : (0:Int) < (st.filtered_apps.length : Int) := by exact_mod_cast hn
  refine ⟨le_min (le_max_right _ _) (by omega), ?_⟩
  have := min_le_right (max idx 0) ((st.filtered_apps.length : Int) - 1)
  omega

theorem move_down_eq (st : UIState) (h : st.filtered_apps ≠ []) :
    move_down st = { st with focus_index :=
      (st.focus_index + 1) % (st.filtered_apps.length : Int) } := by
  have hn : 0 < st.filtered_apps.length := List.length_pos.mpr h
  have hz : (0:Int) < (st.filtered_apps.length : Int) := by exact_mod_cast hn
  have he : st.filtered_apps.isEmpty = false := by
    simpa [List.isEmpty_iff] using h
  have h0 : 0 ≤ (st.focus_index + 1) % (st.filtered_apps.length : Int) :=
    Int.emod_nonneg _ hz.ne'
  have h1 : (st.focus_index + 1) % (st.filtered_apps.length : Int) <
      (st.filtered_apps.length : Int) := Int.emod_lt_of_pos _ hz
  unfold move_down set_focus
  simp only [he, Bool.false_eq_true, if_false]
  rw [clamp_of_range _ _ h0 h1]

theorem move_up_eq (st : UIState) (h : st.filtered_apps ≠ []) :
    move_up st = { st with focus_index :=
      (st.focus_index - 1) % (st.filtered_apps.length : Int) } := by
  have hn : 0 < st.filtered_apps.length := List.length_pos.mpr h
  have hz : (0:Int) < (st.filtered_apps.length : Int) := by exact_mod_cast hn
  have he : st.filtered_apps.isEmpty = false := by
    simpa [List.isEmpty_iff] using h
  have h0 : 0 ≤ (st.focus_index - 1) % (st.filtered_apps.length : Int) :=
    Int.emod_nonneg _ hz.ne'
  have h1 : (st.focus_index - 1) % (st.filtered_apps.length : Int) <
      (st.filtered_apps.length : Int) := Int.emod_lt_of_pos _ hz
  unfold move_up set_focus
  simp only [he, Bool.false_eq_true, if_false]
  rw [clamp_of_range _ _ h0 h1]

theorem move_down_iterate (st : UIState) (h : st.filtered_apps ≠ [])
    (h0 : 0 ≤ st.focus_index)
    (h1 : st.focus_index < (st.filtered_apps.length : Int)) :
    ∀ k : Nat, (Nat.iterate move_down k st).filtered_apps = st.filtered_apps ∧
      (Nat.iterate move_down k st).focus_index =
        (st.focus_index + (k : Int)) % (st.filtered_apps.length : Int) := by
  intro k
  induction k with
  | zero =>
      refine ⟨rfl, ?_⟩
      rw [Function.iterate_zero_apply, Nat.cast_zero, add_zero]
      exact (Int.emod_eq_of_lt h0 h1).symm
  | succ k ih =>
      obtain ⟨ihf, ihi⟩ := ih
      rw [Function.iterate_succ_apply', move_down_eq _ (ihf ▸ h)]
      refine ⟨ihf, ?_⟩
      simp only [ihf, ihi]
      rw [Int.emod_add_emod]
      push_cast
      ring_nf

/-- C6: on a non-empty visible list of N names with the focus in `[0, N-1]`,
moving down N times returns the focus to its start value, moving up once from
0 lands on N-1, and each single move computes `(index + delta) mod N`. -/
theorem focus_wrap (st : UIState) (h : st.filtered_apps ≠ [])
    (h0 : 0 ≤ st.focus_index)
    (h1 : st.focus_index < (st.filtered_apps.length : Int)) :
    (Nat.iterate move_down st.filtered_apps.length st).focus_index =
      st.focus_index
    ∧ (st.focus_index = 0 →
        (move_up st).focus_index = (st.filtered_apps.length : Int) - 1)
    ∧ (move_down st).focus_index =
        (st.focus_index + 1) % (st.filtered_apps.length : Int)
    ∧ (move_up st).focus_index =
        (st.focus_index - 1) % (st.filtered_apps.length : Int) := by
  have hn : 0 < st.filtered_apps.length := List.length_pos.mpr h
  have hz : (0:Int) < (st.filtered_apps.length : Int) := by exact_mod_cast hn
  refine ⟨?_, ?_, ?_, ?_⟩
  · rw [(move_down_iterate st h h0 h1 st.filtered_apps.length).2]
    have hrw : st.focus_index + (st.filtered_apps.length : Int) =
        st.focus_index + (st.filtered_apps.length : Int) * 1 := by ring
    rw [hrw, Int.add_mul_emod_self_left]
    exact Int.emod_eq_of_lt h0 h1
  · intro hf0
    rw [move_up_eq st h]
    simp only [hf0, zero_sub]
    have hrw : (-1 : Int) = ((st.filtered_apps.length : Int) - 1) +
        (st.filtered_apps.length : Int) * (-1) := by ring
    rw [hrw, Int.add_mul_emod_self_left]
    exact Int.emod_eq_of_lt (by omega) (by omega)
  · rw [move_down_eq st h]
  · rw [move_up_eq st h]

/-- A concrete three-entry state used as a witness input. -/
def stABC : UIState :=
  ⟨["a", "b", "c"], [("a", "a"), ("b", "b"), ("c", "c")], "", ["a", "b", "c"], 0⟩

theorem focus_wrap_witness :
    (stABC.filtered_apps ≠ [] ∧ 0 ≤ stABC.focus_index ∧
      stABC.focus_index < (stABC.filtered_apps.length : Int)) ∧
    ((Nat.iterate move_down stABC.filtered_apps.length stABC).focus_index =
      stABC.focus_index
    ∧ (stABC.focus_index = 0 →
        (move_up stABC).focus_index = (stABC.filtered_apps.length : Int) - 1)
    ∧ (move_down stABC).focus_index =
        (stABC.focus_index + 1) % (stABC.filtered_apps.length : Int)
    ∧ (move_up stABC).focus_index =
        (stABC.focus_index - 1) % (stABC.filtered_apps.length : Int)) :=
  ⟨⟨by decide, by decide, by decide⟩,
    focus_wrap stABC (by decide) (by decide) (by decide)⟩

/-- C7: a move (either direction) on an empty visible list leaves the whole
state - in particular the focus index - unchanged; the handler returns before
touching the index, so no exception and no out-of-range access occurs. -/
theorem move_on_empty (st : UIState) (h : st.filtered_apps = []) :
    move_up st = st ∧ move_down st = st := by
  unfold move_up move_down
  simp [h]

/-- A concrete state whose visible list is empty. -/
def stEmptyFilter : UIState := ⟨["a"], [("a", "a")], "zzz", [], 5⟩

theorem move_on_empty_witness :
    stEmptyFilter.filtered_apps = [] ∧
    (move_up stEmptyFilter = stEmptyFilter ∧
      move_down stEmptyFilter = stEmptyFilter) :=
  ⟨rfl, move_on_empty stEmptyFilter rfl⟩

theorem launch_ok_state (popen : List String → Option String) (st : UIState)
    (evs : List UIEvent) (st' : UIState)
    (hl : launch popen st = .ok (evs, st')) :
    (st' = st ∧ st.filtered_apps = []) ∨ st' = launchReset st := by
  unfold launch at hl
  by_cases he : st.filtered_apps.isEmpty = true
  · rw [if_pos he] at hl
    simp only [Except.ok.injEq, Prod.mk.injEq] at hl
    exact Or.inl ⟨hl.2.symm, List.isEmpty_iff.mp he⟩
  · rw [if_neg he] at hl
    split at hl
    · simp at hl
    · simp only [Except.ok.injEq, Prod.mk.injEq] at hl
      exact Or.inr hl.2.symm

/-- C9: after each state-mutating operation - a query change, a focus move in
either direction, or a launch that returns (in particular its reset) - the
focus index is in `[0, len-1]` whenever the visible list is non-empty: every
such path ends in `set_focus`, which clamps. -/
theorem mutation_clamps (st : UIState) (q : String)
    (popen : List String → Option String) (evs : List UIEvent) (st' : UIState)
    (hl : launch popen st = .ok (evs, st')) :
    focusInv (on_search_change st q) ∧ focusInv (move_up st) ∧
      focusInv (move_down st) ∧ focusInv st' := by
  refine ⟨?_, ?_, ?_, ?_⟩
  · unfold on_search_change
    exact set_focus_establishes_inv _ 0
  · by_cases he : st.filtered_apps = []
    · unfold move_up
      simp only [he, List.isEmpty_nil, if_true]
      intro hne
      exact absurd he hne
    · have hb : st.filtered_apps.isEmpty = false := by
        simpa [List.isEmpty_iff] using he
      unfold move_up
      simp only [hb, Bool.false_eq_true, if_false]
      exact set_focus_establishes_inv _ _
  · by_cases he : st.filtered_apps = []
    · unfold move_down
      simp only [he, List.isEmpty_nil, if_true]
      intro hne
      exact absurd he hne
    · have hb : st.filtered_apps.isEmpty = false := by
        simpa [List.isEmpty_iff] using he
      unfold move_down
      simp only [hb, Bool.false_eq_true, if_false]
      exact set_focus_establishes_inv _ _
  · rcases launch_ok_state popen st evs st' hl with ⟨hst, hemp⟩ | hst
    · subst hst
      intro hne
      exact absurd hemp hne
    · subst hst
      unfold launchReset
      exact set_focus_establishes_inv _ 0

theorem mutation_clamps_witness :
    launch (fun _ => none) stABC = .ok ([UIEvent.popenCall ["a"]], stABC) ∧
    (focusInv (on_search_change stABC "b") ∧ focusInv (move_up stABC) ∧
      focusInv (move_down stABC) ∧ focusInv stABC) :=
  ⟨rfl, mutation_clamps stABC "b" (fun _ => none) [UIEvent.popenCall ["a"]]
    stABC rfl⟩

/-- The empty needle is a substring of every string. -/
theorem pyIn_empty (s : String) : pyIn "" s = true := by
  unfold pyIn
  rw [decide_eq_true_eq]
  exact List.nil_infix

theorem on_search_change_filtered (st : UIState) (q : String) :
    (on_search_change st q).filtered_apps =
      st.all_app_names.filter
        (fun a => pyIn (pyLower (pyStrip q)) (pyLower a)) := by
  unfold on_search_change
  rw [(set_focus_fields _ _).2.2.2]

/-- C4 amended (the handler lower-cases the query only after stripping
leading and trailing whitespace): a name of the index is visible iff the
stripped, lower-cased query is a substring of the lower-cased name; the empty
query restores every name in original index order, and the visible list is
always an order-preserving sublist of the index. -/
theorem filter_correct (st : UIState) (q : String) :
    (∀ n, n ∈ st.all_app_names →
      (n ∈ (on_search_change st q).filtered_apps ↔
        pyIn (pyLower (pyStrip q)) (pyLower n) = true)) ∧
    (on_search_change st "").filtered_apps = st.all_app_names ∧
    ((on_search_change st q).filtered_apps).Sublist st.all_app_names := by
  refine ⟨?_, ?_, ?_⟩
  · intro n hn
    rw [on_search_change_filtered]
    constructor
    · intro hm
      exact (List.mem_filter.mp hm).2
    · intro hp
      exact List.mem_filter.mpr ⟨hn, hp⟩
  · rw [on_search_change_filtered]
    have h1 : pyLower (pyStrip "") = "" := rfl
    rw [h1]
    have h2 : (fun a => pyIn "" (pyLower a)) = (fun (_ : String) => true) :=
      funext (fun a => pyIn_empty (pyLower a))
    rw [h2, List.filter_true]
  · rw [on_search_change_filtered]
    exact List.filter_sublist _

theorem filter_correct_witness :
    ("a" ∈ stABC.all_app_names) ∧
    (("a" ∈ (on_search_change stABC "").filtered_apps ↔
      pyIn (pyLower (pyStrip "")) (pyLower "a") = true) ∧
      (on_search_change stABC "").filtered_apps = stABC.all_app_names) :=
  ⟨by decide,
   ⟨(filter_correct stABC "").1 "a" (by decide), (filter_correct stABC "").2.1⟩⟩

/-- C4 counterexample: with the query `" a"` the name `"a"` is visible (the
handler strips the query to `"a"` before matching), but the claim's predicate
- the raw query lower-cased being a substring of the lower-cased name - is
false, so the claimed biconditional fails at this input. -/
theorem filter_strip_counterexample :
    (on_search_change stABC " a").filtered_apps = ["a"] ∧
    pyIn (pyLower " a") (pyLower "a") = false := ⟨rfl, rfl⟩

/-- Membership in `scanFile`-form, unfolded to the key conditions. -/
theorem scanFile_eq_some (d : Descriptor) (n e : String) :
    scanFile d = some (n, e) ↔
      d.name = some n ∧ d.exec_cmd = some e ∧ n ≠ "" ∧ e ≠ "" ∧
        pyBoolKey d.noDisplay "false" = false := by
  rcases d with ⟨dn, de, dt, dnd⟩
  unfold scanFile
  cases dn with
  | none => simp
  | some a =>
      cases de with
      | none => simp
      | some b =>
          simp only [Option.some.injEq]
          split
          · next hc =>
              rw [Bool.and_eq_true, Bool.and_eq_true, bne_iff_ne, bne_iff_ne,
                Bool.not_eq_true'] at hc
              obtain ⟨⟨ha, hb⟩, hnd⟩ := hc
              simp only [Option.some.injEq, Prod.mk.injEq]
              constructor
              · rintro ⟨h1, h2⟩
                subst h1
                subst h2
                exact ⟨rfl, rfl, ha, hb, hnd⟩
              · rintro ⟨h1, h2, h3, h4, h5⟩
                exact ⟨h1, h2⟩
          · next hc =>
              constructor
              · intro h
                exact absurd h (by simp)
              · rintro ⟨h1, h2, h3, h4, h5⟩
                subst h1
                subst h2
                exact absurd (by simp [bne_iff_ne, h3, h4, h5]) hc

/-- C1 amended: an entry is added to the index iff `Name` is present and
non-empty, `Exec` is present and non-empty, and `NoDisplay` is false -
`if entry and exec_cmd` tests Python truthiness, so a present-but-empty
`Exec` (or `Name`) excludes the descriptor. -/
theorem list_apps_inclusion (files : List Descriptor) (n e : String) :
    (n, e) ∈ list_apps files ↔
      ∃ d ∈ files, d.name = some n ∧ d.exec_cmd = some e ∧
        n ≠ "" ∧ e ≠ "" ∧ pyBoolKey d.noDisplay "false" = false := by
  unfold list_apps
  rw [List.mem_filterMap]
  constructor
  · rintro ⟨d, hd, hs⟩
    exact ⟨d, hd, (scanFile_eq_some d n e).mp hs⟩
  · rintro ⟨d, hd, hcond⟩
    exact ⟨d, hd, (scanFile_eq_some d n e).mpr hcond⟩

theorem list_apps_inclusion_witness :
    ("Firefox", "firefox %u") ∈
      list_apps [⟨some "Firefox", some "firefox %u", none, none⟩] :=
  (list_apps_inclusion [⟨some "Firefox", some "firefox %u", none, none⟩]
      "Firefox" "firefox %u").mpr
    ⟨⟨some "Firefox", some "firefox %u", none, none⟩, by decide, rfl, rfl,
      by decide, by decide, rfl⟩

/-- C1 counterexample: a descriptor with `Name` present, `Exec` present but
equal to the empty string, and `NoDisplay` absent (hence false) is NOT added
to the index, although the claim says presence of `Exec` suffices. -/
theorem list_apps_empty_exec_counterexample :
    list_apps [⟨some "Editor", some "", none, none⟩] = [] ∧
    pyBoolKey none "false" = false := ⟨rfl, rfl⟩

/-- C8: the sanitizer tokenizes with shell-word-splitting rules and drops
exactly the tokens whose first character is `%`, keeping the rest in order
(`List.filter` preserves relative order); with the three concrete examples
of §8. -/
theorem clean_exec_cmd_spec :
    (∀ s toks, shlexSplit s = Except.ok toks →
      clean_exec_cmd s =
        Except.ok (toks.filter (fun t => !startsWithPercent t))) ∧
    clean_exec_cmd "app %U --flag %f" = Except.ok ["app", "--flag"] ∧
    clean_exec_cmd "app" = Except.ok ["app"] ∧
    clean_exec_cmd "" = Except.ok [] := by
  refine ⟨?_, rfl, rfl, rfl⟩
  intro s toks h
  unfold clean_exec_cmd
  rw [h]
  rfl

theorem clean_exec_cmd_spec_witness :
    shlexSplit "app %U" = Except.ok ["app", "%U"] ∧
    clean_exec_cmd "app %U" = Except.ok ["app"] :=
  ⟨rfl, clean_exec_cmd_spec.1 "app %U" ["app", "%U"] rfl⟩

/-- C10: pressing enter while the visible list is empty is a complete no-op:
the handler's guard fails, so no Popen call and no dialog occur (the event
list is empty) and the state - query, visible list and focus index - is
returned unchanged: no post-launch reset happens. -/
theorem launch_on_empty_list (popen : List String → Option String)
    (st : UIState) (h : st.filtered_apps = []) :
    launch popen st = Except.ok ([], st) := by
  unfold launch
  simp [h]

theorem launch_on_empty_list_witness :
    stEmptyFilter.filtered_apps = [] ∧
    launch (fun _ => none) stEmptyFilter = Except.ok ([], stEmptyFilter) :=
  ⟨rfl, launch_on_empty_list (fun _ => none) stEmptyFilter rfl⟩

/-- C2 amended: when the focused name misses the command dict, the handler
silently skips the spawn: no Popen call is made and no notification is shown
(the event list is empty); the launch is not fatal and still performs the
standard post-launch reset. -/
theorem launch_miss_silent (popen : List String → Option String)
    (st : UIState) (name : String)
    (hname : pyIndex st.filtered_apps st.focus_index = some name)
    (hmiss : dictGet st.app_dict name = none)
    (hne : st.filtered_apps ≠ []) :
    launch popen st = Except.ok ([], launchReset st) := by
  have he : st.filtered_apps.isEmpty = false := by
    simpa [List.isEmpty_iff] using hne
  unfold launch
  simp only [he, Bool.false_eq_true, if_false, hname, hmiss]

/-- A concrete state whose focused name `X` is absent from the dict. -/
def stMiss : UIState := ⟨["X"], [], "", ["X"], 0⟩

theorem launch_miss_silent_witness :
    (pyIndex stMiss.filtered_apps stMiss.focus_index = some "X" ∧
      dictGet stMiss.app_dict "X" = none ∧ stMiss.filtered_apps ≠ []) ∧
    launch (fun _ => none) stMiss = Except.ok ([], launchReset stMiss) :=
  ⟨⟨rfl, rfl, by decide⟩,
    launch_miss_silent (fun _ => none) stMiss "X" rfl rfl (by decide)⟩

/-- C2 counterexample: with `X` focused and absent from the dict, the enter
handler emits NO event at all - in particular no blocking notification and
no `Failed`-surface - and just resets, contradicting the claim that the
failure reason is surfaced to the user. -/
theorem launch_miss_counterexample :
    dictGet stMiss.app_dict "X" = none ∧
    launch (fun _ => none) stMiss = Except.ok ([], stMiss) := ⟨rfl, rfl⟩

/-- C3 amended: when the resolved command sanitizes to an empty argument
vector, the handler does NOT short-circuit: it passes the empty argv to the
spawn collaborator (a `popenCall []` is attempted), and the exception the
collaborator raises is caught and surfaced as
`Error launching <name>:\n<message>`; the reset still runs and nothing is
fatal. There is no `Failed("empty command")` outcome in the code. -/
theorem launch_empty_argv (popen : List String → Option String)
    (st : UIState) (name cmd msg : String)
    (hname : pyIndex st.filtered_apps st.focus_index = some name)
    (hcmd : dictGet st.app_dict name = some cmd) (hc : cmd ≠ "")
    (hclean : clean_exec_cmd cmd = Except.ok [])
    (hpopen : popen [] = some msg)
    (hne : st.filtered_apps ≠ []) :
    launch popen st = Except.ok
      ([UIEvent.popenCall [],
        UIEvent.errorDialog ("Error launching " ++ name ++ ":\n" ++ msg)],
       launchReset st) := by
  have he : st.filtered_apps.isEmpty = false := by
    simpa [List.isEmpty_iff] using hne
  have hceq : (cmd == "") = false := by simpa using hc
  unfold launch
  simp only [he, Bool.false_eq_true, if_false, hname, hcmd, hceq, hclean,
    hpopen]

/-- A concrete state whose focused entry has `Exec = "%U"`, a command that
sanitizes to the empty argument vector. -/
def stEditor : UIState := ⟨["Editor"], [("Editor", "%U")], "", ["Editor"], 0⟩

/-- The spawn collaborator as CPython behaves on an empty argv:
`subprocess.Popen([])` deterministically raises
`IndexError: list index out of range`. -/
def popenRaisesOnEmpty : List String → Option String :=
  fun argv => if argv.isEmpty then some "list index out of range" else none

theorem launch_empty_argv_witness :
    (pyIndex stEditor.filtered_apps stEditor.focus_index = some "Editor" ∧
      dictGet stEditor.app_dict "Editor" = some "%U" ∧
      ("%U" : String) ≠ "" ∧ clean_exec_cmd "%U" = Except.ok [] ∧
      popenRaisesOnEmpty [] = some "list index out of range" ∧
      stEditor.filtered_apps ≠ []) ∧
    launch popenRaisesOnEmpty stEditor = Except.ok
      ([UIEvent.popenCall [],
        UIEvent.errorDialog
          ("Error launching " ++ "Editor" ++ ":\n" ++ "list index out of range")],
       launchReset stEditor) :=
  ⟨⟨rfl, rfl, by decide, rfl, rfl, by decide⟩,
    launch_empty_argv popenRaisesOnEmpty stEditor "Editor" "%U"
      "list index out of range" rfl rfl (by decide) rfl rfl (by decide)⟩

/-- C3 counterexample: launching `Editor` whose `Exec = "%U"` sanitizes to
`[]` produces a `popenCall []` event - the code DOES attempt to spawn the
empty argv - and the surfaced message is the collaborator's
`list index out of range`, not `"empty command"`. -/
theorem launch_empty_argv_counterexample :
    clean_exec_cmd "%U" = Except.ok [] ∧
    launch popenRaisesOnEmpty stEditor = Except.ok
      ([UIEvent.popenCall [],
        UIEvent.errorDialog "Error launching Editor:\nlist index out of range"],
       stEditor) := ⟨rfl, rfl⟩

/-- C5: after a launch attempt on a focused entry (non-empty visible list,
in-range focus; `all_app_names` is non-empty in every reachable such state
since the visible list is drawn from it), whatever the events were, the new
state has an empty query, the full name list visible and focus 0. -/
theorem launch_resets (popen : List String → Option String) (st : UIState)
    (hne : st.filtered_apps ≠ []) (hall : st.all_app_names ≠ [])
    (h0 : 0 ≤ st.focus_index)
    (h1 : st.focus_index < (st.filtered_apps.length : Int)) :
    ∃ evs, launch popen st = Except.ok (evs, launchReset st) ∧
      (launchReset st).query = "" ∧
      (launchReset st).filtered_apps = st.all_app_names ∧
      (launchReset st).focus_index = 0 := by
  have he : st.filtered_apps.isEmpty = false := by
    simpa [List.isEmpty_iff] using hne
  have htn : st.focus_index.toNat < st.filtered_apps.length := by omega
  obtain ⟨nm, hnm⟩ : ∃ nm,
      pyIndex st.filtered_apps st.focus_index = some nm := by
    unfold pyIndex
    rw [if_pos h0]
    exact ⟨_, List.getElem?_eq_getElem htn⟩
  have hq : (launchReset st).query = "" := by
    unfold launchReset
    rw [(set_focus_fields _ _).2.2.1]
  have hf : (launchReset st).filtered_apps = st.all_app_names := by
    unfold launchReset
    rw [(set_focus_fields _ _).2.2.2]
  have hzall : (0:Int) < (st.all_app_names.length : Int) := by
    have := List.length_pos.mpr hall
    exact_mod_cast this
  have hfoc : (launchReset st).focus_index = 0 := by
    unfold launchReset
    rw [set_focus_focus_of_ne _ _ hall]
    exact clamp_of_range 0 _ le_rfl hzall
  have hmain : ∃ evs, launch popen st = Except.ok (evs, launchReset st) := by
    unfold launch
    rw [if_neg (by simp [he]), hnm]
    exact ⟨_, rfl⟩
  obtain ⟨evs, hevs⟩ := hmain
  exact ⟨evs, hevs, hq, hf, hfoc⟩

theorem launch_resets_witness :
    (stABC.filtered_apps ≠ [] ∧ stABC.all_app_names ≠ [] ∧
      0 ≤ stABC.focus_index ∧
      stABC.focus_index < (stABC.filtered_apps.length : Int)) ∧
    (∃ evs, launch (fun _ => none) stABC = Except.ok (evs, launchReset stABC) ∧
      (launchReset stABC).query = "" ∧
      (launchReset stABC).filtered_apps = stABC.all_app_names ∧
      (launchReset stABC).focus_index = 0) :=
  ⟨⟨by decide, by decide, by decide, by decide⟩,
    launch_resets (fun _ => none) stABC (by decide) (by decide) (by decide)
      (by decide)⟩
